import Mathlib

/-!
Shallow embedding of the `tttocea608` element
(`src/video/closedcaption/src/tttocea608.rs`): a converter from timed text
to CEA-608 closed-caption byte pairs.  Machine integers (`u64`, `u16`) are
modelled as `Nat`; none of the verified properties depends on wraparound,
which for `u64` would require frame numbers beyond 2^64 / 10^9.
-/

namespace TtToCea608

/-- One second in nanoseconds (`gst::SECOND`). -/
def SECOND : Nat := 1000000000

/-- The helper `gst_util_uint64_scale_round val num denom`: `val * num / denom`
rounded to nearest (the correction term `denom / 2` is added to the
product before the integer division). -/
def scale_round (val num denom : Nat) : Nat :=
  (val * num + denom / 2) / denom

/-- Conversion of a frame number to a timestamp in nanoseconds:
`scale_round (f * SECOND) fps_d fps_n`, exactly as both call sites of the
source spell it. -/
def frames_to_time (fps_n fps_d f : Nat) : Nat :=
  scale_round (f * SECOND) fps_d fps_n

/-- Conversion of a nanosecond timestamp to a frame number:
`scale_round t fps_n fps_d / SECOND`, as in `sink_chain` line 403 and the
gap branch of `sink_event`. -/
def time_to_frames (fps_n fps_d t : Nat) : Nat :=
  scale_round t fps_n fps_d / SECOND

/-- The function `decrement_pts` from the source.  The Rust function mutates
`frame_no` in place and returns `(new_pts, duration)`; here the updated
frame number is returned as the first component, so the result triple is
`(frame_no after, new_pts, duration)`. -/
def decrement_pts (min_frame_no frame_no fps_n fps_d : Nat) :
    Nat × Nat × Nat :=
  let old_pts := frames_to_time fps_n fps_d frame_no
  let frame_no := if min_frame_no < frame_no then frame_no - 1 else frame_no
  let new_pts := frames_to_time fps_n fps_d frame_no
  (frame_no, new_pts, old_pts - new_pts)

/-- Predicate `is_basicna`: `0x0000 != (0x6000 & cc_data)`. -/
def is_basicna (cc_data : Nat) : Bool :=
  0x6000 &&& cc_data != 0

/-- Predicate `is_westeu`: `0x1220 == (0x7660 & cc_data)`. -/
def is_westeu (cc_data : Nat) : Bool :=
  0x7660 &&& cc_data == 0x1220

/-- Predicate `is_specialna`: `0x1130 == (0x7770 & cc_data)`. -/
def is_specialna (cc_data : Nat) : Bool :=
  0x7770 &&& cc_data == 0x1130

/-- Constant `LATENCY_BUFFERS`, the fixed latency budget in frames. -/
def LATENCY_BUFFERS : Nat := 74

/-- The four CEA-608 control commands the element emits. -/
inductive Control where
  | resumeCaptionLoading
  | eraseNonDisplayedMemory
  | eraseDisplayMemory
  | endOfCaption
deriving DecidableEq

/-- Modelled from the spec: the external Code Table collaborator (the
libcaption FFI functions `eia608_from_utf8_1`, `eia608_row_column_pramble`,
`eia608_control_command`, `eia608_from_basicna`, which are not part of this
repository).  Per the spec it is "a pure external function: given a Unicode
scalar, return its CEA-608 code point or a no-mapping signal (0)", plus
constructors for control commands, preambles and basic-NA pairs. -/
structure CodeTable where
  fromUtf8 : Char → Nat
  preamble : Nat → Nat → Nat
  control : Control → Nat
  fromBasicna : Nat → Nat → Nat

/-- Helper `control_command_buffer`: every control command is pushed doubled. -/
def controlFrames (T : CodeTable) (c : Control) : List Nat :=
  [T.control c, T.control c]

/-- Helper `preamble_buffer`: the row/column preamble is pushed doubled. -/
def preambleFrames (T : CodeTable) (row col : Nat) : List Nat :=
  [T.preamble row col, T.preamble row col]

/-- The per-character loop of `sink_chain` (lines 314-384 of the source),
over the decoded characters.  State carried exactly as in the source:
current `row`, current `col`, pending unpaired character `prev_char`.
Returns the emitted cc codes (in emission order) together with the value
of `prev_char` when the loop ends.  Note on the source's column check:
`col += 1; if col > 32 { warn; continue; }` is the final statement of the
loop body, so the `continue` skips nothing; `col` is therefore carried
but never influences the output. -/
def encodeLoop (T : CodeTable) (space : Nat) :
    List Char → Nat → Nat → Nat → List Nat × Nat
  | [], _row, _col, prev => ([], prev)
  | c :: cs, row, col, prev =>
    if c = '\n' then
      let flushed := if prev != 0 then [prev] else []
      if row + 1 > 14 then (flushed, 0)
      else
        let rest := encodeLoop T space cs (row + 1) 0 0
        (flushed ++ preambleFrames T (row + 1) 0 ++ rest.1, rest.2)
    else if c = '\r' then
      encodeLoop T space cs row col prev
    else
      let cc0 := T.fromUtf8 c
      let cc := if cc0 = 0 then space else cc0
      let step : List Nat × Nat :=
        if is_basicna prev then
          (if is_basicna cc then [T.fromBasicna prev cc]
           else if is_westeu cc then [T.fromBasicna prev space, cc]
           else [prev, cc], 0)
        else if is_westeu cc then ([space, cc], prev)
        else if is_basicna cc then ([], cc)
        else ([cc], prev)
      let out :=
        step.1 ++
          (if is_specialna cc then controlFrames T .resumeCaptionLoading
           else [])
      let rest := encodeLoop T space cs row (col + 1) step.2
      (out ++ rest.1, rest.2)

/-- The buffer-building half of `sink_chain` (lines 294-391): the control
skeleton around the character loop, starting at row 13, column 0, with no
pending character, then the final flush of `prev_char` and the doubled
`end_of_caption`. -/
def encodeCue (T : CodeTable) (text : List Char) : List Nat :=
  let space := T.fromUtf8 ' '
  let head :=
    controlFrames T .resumeCaptionLoading ++
      controlFrames T .eraseNonDisplayedMemory ++
      preambleFrames T 13 0
  let body := encodeLoop T space text 13 0 0
  head ++ body.1 ++ (if body.2 != 0 then [body.2] else []) ++
    controlFrames T .endOfCaption

/-- The element's `State` struct: frame rate, pending deferred erase
target, and the monotonic floor `last_frame_no`. -/
structure State where
  fps_n : Nat
  fps_d : Nat
  erase_display_frame_no : Option Nat
  last_frame_no : Nat
deriving DecidableEq

/-- Default state `State::default()`: 30/1 fps, no pending erase, floor 0. -/
def State.default : State :=
  { fps_n := 30, fps_d := 1, erase_display_frame_no := none,
    last_frame_no := 0 }

/-- A scheduled caption frame: cc code, output timestamp and duration. -/
structure Frame where
  cc : Nat
  pts : Nat
  duration : Nat
deriving DecidableEq

/-- The gap event `push_list` may emit before a buffer list. -/
structure GapEvent where
  start : Nat
  duration : Nat
deriving DecidableEq

/-- One downstream push: an optional preceding gap event plus an ordered
list of timestamped caption frames. -/
structure Push where
  gap : Option GapEvent
  frames : List Frame
deriving DecidableEq

/-- Method `TtToCea608::push_list`: emit a gap event from
`frames_to_time last_frame_no` to `frames_to_time new_frame_no` when the
two frame numbers differ, then the buffer list itself.  The source
computes the gap duration as `end - start` on `ClockTime`; here the
subtraction is truncating `Nat` subtraction. -/
def push_list (fps_n fps_d : Nat) (frames : List Frame)
    (last_frame_no new_frame_no : Nat) : Push :=
  if last_frame_no != new_frame_no then
    let s := frames_to_time fps_n fps_d last_frame_no
    let e := frames_to_time fps_n fps_d new_frame_no
    { gap := some { start := s, duration := e - s }, frames := frames }
  else
    { gap := none, frames := frames }

/-- Method `TtToCea608::do_erase_display`: set `last_frame_no` to the erase
target, then schedule two doubled erase-display frames backward from the
target (each `erase_display_memory` call inserts at position 0), and push
the list with `min_frame_no` as the gap start. -/
def do_erase_display (T : CodeTable) (s : State)
    (min_frame_no erase_display_frame_no : Nat) : State × Push :=
  let ccE := T.control .eraseDisplayMemory
  let s' := { s with last_frame_no := erase_display_frame_no }
  let r1 := decrement_pts min_frame_no erase_display_frame_no s.fps_n s.fps_d
  let bl := [Frame.mk ccE r1.2.1 r1.2.2]
  let r2 := decrement_pts min_frame_no r1.1 s.fps_n s.fps_d
  let bl := Frame.mk ccE r2.2.1 r2.2.2 :: bl
  (s', push_list s.fps_n s.fps_d bl min_frame_no r2.1)

/-- Rust `Option<u64>` comparison `state.erase_display_frame_no <
Some(frame_no)`: `None` is less than every `Some`. -/
def option_lt : Option Nat → Nat → Bool
  | none, _ => true
  | some e, f => e < f

/-- The reverse timestamp-assignment loop of `sink_chain` (lines
432-449).  The buffer list is traversed in reverse emission order (the
argument `bufs` is the reversed buffer list); each scheduled frame is
prepended to `bl` (mirroring `insert(0, ...)`), and when the pending
erase target equals the current frame number two erase-display frames
are prepended first.  Returns the final buffer list, the final frame
number, and what is left of the pending erase. -/
def schedLoop (ccE min_frame_no fps_n fps_d : Nat) :
    List Nat → Nat → Option Nat → List Frame →
      List Frame × Nat × Option Nat
  | [], frame_no, erase, bl => (bl, frame_no, erase)
  | cc :: rest, frame_no, erase, bl =>
    let spliced : List Frame × Nat × Option Nat :=
      if erase = some frame_no then
        let r1 := decrement_pts min_frame_no frame_no fps_n fps_d
        let bl := Frame.mk ccE r1.2.1 r1.2.2 :: bl
        let r2 := decrement_pts min_frame_no r1.1 fps_n fps_d
        (Frame.mk ccE r2.2.1 r2.2.2 :: bl, r2.1, none)
      else (bl, frame_no, erase)
    let r := decrement_pts min_frame_no spliced.2.1 fps_n fps_d
    schedLoop ccE min_frame_no fps_n fps_d rest r.1 spliced.2.2
      (Frame.mk cc r.2.1 r.2.2 :: spliced.1)

/-- Method `TtToCea608::sink_chain` (the scheduling half, lines 393-463),
composed with the encoder: target frame number from the cue's pts plus 2,
filter of the pending erase against the cue's starting target, floor from
the previous `last_frame_no`, new pending erase target from
`pts + duration`, reverse scheduling walk, and either a plain push or a
fallback `do_erase_display` push followed by the cue push. -/
def sink_chain (T : CodeTable) (s : State) (pts duration : Nat)
    (text : List Char) : State × List Push :=
  let buffers := encodeCue T text
  let fps_n := s.fps_n
  let fps_d := s.fps_d
  let frame_no := time_to_frames fps_n fps_d pts
  let eraseLocal :=
    if option_lt s.erase_display_frame_no frame_no then
      s.erase_display_frame_no
    else none
  let frame_no := frame_no + 2
  let min_frame_no := s.last_frame_no
  let s1 :=
    { s with
      last_frame_no := frame_no,
      erase_display_frame_no :=
        some (time_to_frames fps_n fps_d (pts + duration) + 2) }
  let r :=
    schedLoop (T.control .eraseDisplayMemory) min_frame_no fps_n fps_d
      buffers.reverse frame_no eraseLocal []
  match r.2.2 with
  | some e =>
    let q := do_erase_display T s1 min_frame_no e
    (q.1, [q.2, push_list fps_n fps_d r.1 e r.2.1])
  | none =>
    (s1, [push_list fps_n fps_d r.1 min_frame_no r.2.1])

/-- The gap branch of `TtToCea608::sink_event` (lines 539-572): compute
the frame number from the gap's end timestamp, ignore the event when it
is below `LATENCY_BUFFERS`, otherwise subtract the budget and resolve a
pending erase whose target is at or before the adjusted frame number. -/
def sink_event_gap (T : CodeTable) (s : State) (timestamp duration : Nat) :
    State × List Push :=
  let frame_no := time_to_frames s.fps_n s.fps_d (timestamp + duration)
  if frame_no < LATENCY_BUFFERS then (s, [])
  else
    let frame_no := frame_no - LATENCY_BUFFERS
    match s.erase_display_frame_no with
    | some e =>
      if e ≤ frame_no then
        let min_frame_no := s.last_frame_no
        let s' := { s with erase_display_frame_no := none }
        let q := do_erase_display T s' min_frame_no e
        (q.1, [q.2])
      else (s, [])
    | none => (s, [])

/-- The end-of-stream branch of `TtToCea608::sink_event` (lines 573-586):
unconditionally resolve a pending erase against the current floor. -/
def sink_event_eos (T : CodeTable) (s : State) : State × List Push :=
  match s.erase_display_frame_no with
  | some e =>
    let min_frame_no := s.last_frame_no
    let s' := { s with erase_display_frame_no := none }
    let q := do_erase_display T s' min_frame_no e
    (q.1, [q.2])
  | none => (s, [])

/-- The operations a session sees, in the order the transport delivers
them: cues on the chain function, gap and end-of-stream events on the
event function. -/
inductive Op where
  | cue (pts duration : Nat) (text : List Char)
  | gap (timestamp duration : Nat)
  | eos

/-- Dispatch one operation against the state. -/
def stepOp (T : CodeTable) (s : State) : Op → State × List Push
  | .cue pts duration text => sink_chain T s pts duration text
  | .gap timestamp duration => sink_event_gap T s timestamp duration
  | .eos => sink_event_eos T s

/-- All caption frames of a list of pushes, in delivery order. -/
def pushesFrames (ps : List Push) : List Frame :=
  ps.foldr (fun p acc => p.frames ++ acc) []

/-- The session invariant the element maintains: a pending deferred
erase target is never below the floor `last_frame_no`. -/
def Inv (s : State) : Prop :=
  ∀ e, s.erase_display_frame_no = some e → s.last_frame_no ≤ e

/-- An operation is in order when, for a cue, its target frame number
(start frame + 2, as computed by `sink_chain`) is not below the floor in
force; gap and end-of-stream notifications are unconstrained. -/
def opInOrder (s : State) : Op → Prop
  | .cue pts _ _ =>
    s.last_frame_no ≤ time_to_frames s.fps_n s.fps_d pts + 2
  | _ => True

/-- Every operation of the list is in order with respect to the state
in force when it is processed. -/
def InOrderFrom (T : CodeTable) (s : State) : List Op → Prop
  | [] => True
  | op :: rest => opInOrder s op ∧ InOrderFrom T (stepOp T s op).1 rest

/-- The property of a run claimed by the spec: every caption frame each
operation emits has a timestamp at least `frames_to_time` of the floor
in force when the operation begins, and the floor never decreases. -/
def FloorProp (T : CodeTable) (s : State) : List Op → Prop
  | [] => True
  | op :: rest =>
    (∀ fr ∈ pushesFrames (stepOp T s op).2,
      frames_to_time s.fps_n s.fps_d s.last_frame_no ≤ fr.pts) ∧
    s.last_frame_no ≤ (stepOp T s op).1.last_frame_no ∧
    FloorProp T (stepOp T s op).1 rest

/-- A concrete instance of the external code table, with the standard
CEA-608 control codes, used to evaluate the model on concrete cues. -/
def exampleTable : CodeTable :=
  { fromUtf8 := fun c =>
      if c = 'a' then 0x2061
      else if c = ' ' then 0x2020
      else if c = 'é' then 0x1220
      else 0,
    preamble := fun row col => 0x1150 + 32 * row + col,
    control := fun c =>
      match c with
      | .resumeCaptionLoading => 0x1420
      | .eraseNonDisplayedMemory => 0x142e
      | .eraseDisplayMemory => 0x142c
      | .endOfCaption => 0x142f,
    fromBasicna := fun b1 b2 => 65536 * b1 + b2 }

/-! ## Arithmetic lemmas about the frame/time conversions -/

theorem scale_round_mono (num denom : Nat) {v1 v2 : Nat} (h : v1 ≤ v2) :
    scale_round v1 num denom ≤ scale_round v2 num denom := by
  unfold scale_round
  exact Nat.div_le_div_right (Nat.add_le_add_right (Nat.mul_le_mul_right _ h) _)

theorem frames_to_time_mono_of_le (fps_n fps_d : Nat) {f1 f2 : Nat}
    (h : f1 ≤ f2) :
    frames_to_time fps_n fps_d f1 ≤ frames_to_time fps_n fps_d f2 := by
  unfold frames_to_time
  exact scale_round_mono _ _ (Nat.mul_le_mul_right _ h)

theorem time_to_frames_mono (fps_n fps_d : Nat) {t1 t2 : Nat} (h : t1 ≤ t2) :
    time_to_frames fps_n fps_d t1 ≤ time_to_frames fps_n fps_d t2 := by
  unfold time_to_frames
  exact Nat.div_le_div_right (scale_round_mono _ _ h)

/-- When a frame lasts at least one nanosecond (`fps_n ≤ SECOND * fps_d`),
consecutive frame numbers get strictly increasing timestamps. -/
theorem frames_to_time_strict (fps_n fps_d : Nat) (hn : 0 < fps_n)
    (hper : fps_n ≤ SECOND * fps_d) {f1 f2 : Nat} (h : f1 < f2) :
    frames_to_time fps_n fps_d f1 < frames_to_time fps_n fps_d f2 := by
  have key : frames_to_time fps_n fps_d f1 + 1 ≤
      frames_to_time fps_n fps_d (f1 + 1) := by
    unfold frames_to_time scale_round
    have h1 : (f1 + 1) * SECOND * fps_d = f1 * SECOND * fps_d + SECOND * fps_d := by
      ring
    rw [h1]
    have h2 : f1 * SECOND * fps_d + fps_n / 2 + fps_n ≤
        f1 * SECOND * fps_d + SECOND * fps_d + fps_n / 2 := by omega
    calc (f1 * SECOND * fps_d + fps_n / 2) / fps_n + 1
        = (f1 * SECOND * fps_d + fps_n / 2 + fps_n) / fps_n := by
          rw [Nat.add_div_right _ hn]
      _ ≤ (f1 * SECOND * fps_d + SECOND * fps_d + fps_n / 2) / fps_n :=
          Nat.div_le_div_right h2
  calc frames_to_time fps_n fps_d f1 < frames_to_time fps_n fps_d (f1 + 1) :=
        Nat.lt_of_lt_of_le (Nat.lt_succ_self _) key
    _ ≤ frames_to_time fps_n fps_d f2 := frames_to_time_mono_of_le _ _ h

/-! ## Lemmas about the CEA-608 classification masks -/

theorem landAssoc (a b c : Nat) : a &&& b &&& c = a &&& (b &&& c) := by
  apply Nat.eq_of_testBit_eq
  intro i
  simp [Nat.testBit_land, Bool.and_assoc]

/-- Restricting an AND-mask through a larger mask. -/
theorem land_reduce {a b : Nat} (hab : a &&& b = a) (c : Nat) {v : Nat}
    (h : b &&& c = v) : a &&& c = a &&& v := by
  calc a &&& c = a &&& b &&& c := by rw [hab]
    _ = a &&& (b &&& c) := landAssoc _ _ _
    _ = a &&& v := by rw [h]

theorem westeu_not_basicna {c : Nat} (h : is_westeu c = true) :
    is_basicna c = false := by
  have hm : 0x7660 &&& c = 0x1220 := by simpa [is_westeu] using h
  have h6 : 0x6000 &&& c = 0 := by
    have := land_reduce (a := 0x6000) (b := 0x7660) (by decide) c hm
    simpa using this
  simp [is_basicna, h6]

theorem specialna_not_basicna {c : Nat} (h : is_specialna c = true) :
    is_basicna c = false := by
  have hm : 0x7770 &&& c = 0x1130 := by simpa [is_specialna] using h
  have h6 : 0x6000 &&& c = 0 := by
    have := land_reduce (a := 0x6000) (b := 0x7770) (by decide) c hm
    simpa using this
  simp [is_basicna, h6]

theorem specialna_not_westeu {c : Nat} (h : is_specialna c = true) :
    is_westeu c = false := by
  have hm : 0x7770 &&& c = 0x1130 := by simpa [is_specialna] using h
  have h7 : 0x7660 &&& c = 0x1020 := by
    have := land_reduce (a := 0x7660) (b := 0x7770) (by decide) c hm
    simpa using this
  simp [is_westeu, h7]

theorem basicna_not_westeu {c : Nat} (h : is_basicna c = true) :
    is_westeu c = false := by
  cases hw : is_westeu c
  · rfl
  · rw [westeu_not_basicna hw] at h
    exact absurd h (by simp)

theorem basicna_not_specialna {c : Nat} (h : is_basicna c = true) :
    is_specialna c = false := by
  cases hs : is_specialna c
  · rfl
  · rw [specialna_not_basicna hs] at h
    exact absurd h (by simp)

theorem westeu_not_specialna {c : Nat} (h : is_westeu c = true) :
    is_specialna c = false := by
  cases hs : is_specialna c
  · rfl
  · rw [specialna_not_westeu hs] at h
    exact absurd h (by simp)

theorem westeu_nonzero {c : Nat} (h : is_westeu c = true) : c ≠ 0 := by
  intro h0
  rw [h0] at h
  exact absurd h (by decide)

theorem basicna_nonzero {c : Nat} (h : is_basicna c = true) : c ≠ 0 := by
  intro h0
  rw [h0] at h
  exact absurd h (by decide)

/-! ## Claim theorems -/

/-- C10: for every CEA-608 code, the classification predicates
`is_basicna`, `is_westeu` and `is_specialna` are pairwise disjoint, and
the value 0 used by `sink_chain` as the "no pending character" sentinel
is not basic-North-American. -/
theorem classification_disjoint :
    ∀ c : Nat,
      ((is_basicna c && is_westeu c) = false ∧
        (is_basicna c && is_specialna c) = false ∧
        (is_westeu c && is_specialna c) = false) ∧
      is_basicna 0 = false := by
  intro c
  refine ⟨⟨?_, ?_, ?_⟩, by decide⟩
  · cases hb : is_basicna c
    · simp
    · simp [basicna_not_westeu hb]
  · cases hb : is_basicna c
    · simp
    · simp [basicna_not_specialna hb]
  · cases hs : is_specialna c
    · simp
    · simp [specialna_not_westeu hs]

/-- C9: for every frame rate with positive numerator and denominator,
`frames_to_time` is monotone in the frame number. -/
theorem frames_to_time_mono (fps_n fps_d : Nat) (hn : 0 < fps_n)
    (hd : 0 < fps_d) {f1 f2 : Nat} (h : f1 < f2) :
    frames_to_time fps_n fps_d f1 ≤ frames_to_time fps_n fps_d f2 :=
  frames_to_time_mono_of_le fps_n fps_d (Nat.le_of_lt h)

theorem frames_to_time_mono_witness :
    0 < 30 ∧ 0 < 1 ∧ 3 < 7 ∧
      frames_to_time 30 1 3 ≤ frames_to_time 30 1 7 :=
  ⟨by decide, by decide, by decide,
    frames_to_time_mono 30 1 (by decide) (by decide) (by decide)⟩

/-- C2, counterexample to the claim as stated: `decrement_pts` returns
the post-decrement timestamp, not `old_pts = frames_to_time f` (at
`m = 0`, `f = 1`, 30/1 fps the returned pts is 0 while
`frames_to_time 1` is 33333333); and at a frame rate above one frame per
nanosecond (2147483647/1, inside the element's accepted range) the
returned duration is 0 even though `f = 1` is strictly above the floor
`m = 0`. -/
theorem decrement_pts_claim_cx :
    (decrement_pts 0 1 30 1).2.1 ≠ frames_to_time 30 1 1 ∧
      ((decrement_pts 0 1 2147483647 1).2.2 = 0 ∧ (1 : Nat) ≠ 0) := by
  decide

/-- C2 (amended): for a floor `m ≤ f` and a frame rate with positive
numerator and denominator and at most one frame per nanosecond, one
backward-scheduling step decrements `f` only if `f > m`, returns
`new_pts = frames_to_time` of the decremented frame number together with
`duration = frames_to_time f − new_pts`, and the duration is zero exactly
when `f` was already at the floor. -/
theorem decrement_pts_spec (m f fps_n fps_d : Nat) (hmf : m ≤ f)
    (hn : 0 < fps_n) (hd : 0 < fps_d) (hper : fps_n ≤ SECOND * fps_d) :
    decrement_pts m f fps_n fps_d =
      (if m < f then f - 1 else f,
        frames_to_time fps_n fps_d (if m < f then f - 1 else f),
        frames_to_time fps_n fps_d f -
          frames_to_time fps_n fps_d (if m < f then f - 1 else f)) ∧
      (frames_to_time fps_n fps_d f -
          frames_to_time fps_n fps_d (if m < f then f - 1 else f) = 0 ↔
        f = m) := by
  refine ⟨rfl, ?_⟩
  by_cases hlt : m < f
  · simp only [if_pos hlt]
    have hstrict : frames_to_time fps_n fps_d (f - 1) <
        frames_to_time fps_n fps_d f :=
      frames_to_time_strict fps_n fps_d hn hper (by omega)
    constructor
    · intro h0
      omega
    · intro hfm
      omega
  · have hfm : f = m := by omega
    simp [hfm]

theorem decrement_pts_spec_witness :
    (0 ≤ 1 ∧ 0 < 30 ∧ 0 < 1 ∧ 30 ≤ SECOND * 1) ∧
      (decrement_pts 0 1 30 1 =
        (if 0 < 1 then 1 - 1 else 1,
          frames_to_time 30 1 (if 0 < 1 then 1 - 1 else 1),
          frames_to_time 30 1 1 -
            frames_to_time 30 1 (if 0 < 1 then 1 - 1 else 1)) ∧
        (frames_to_time 30 1 1 -
            frames_to_time 30 1 (if 0 < 1 then 1 - 1 else 1) = 0 ↔
          1 = 0)) :=
  ⟨⟨by decide, by decide, by decide, by decide⟩,
    decrement_pts_spec 0 1 30 1 (by decide) (by decide) (by decide)
      (by decide)⟩

/-- C6: a cue with empty text emits exactly the eight-frame control
skeleton, in order: resume_caption_loading doubled, then
erase_non_displayed_memory doubled, then the row-13 preamble doubled,
then end_of_caption doubled, and no character data. -/
theorem empty_cue_skeleton (T : CodeTable) :
    encodeCue T [] =
      [T.control .resumeCaptionLoading, T.control .resumeCaptionLoading,
        T.control .eraseNonDisplayedMemory,
        T.control .eraseNonDisplayedMemory,
        T.preamble 13 0, T.preamble 13 0,
        T.control .endOfCaption, T.control .endOfCaption] := by
  simp [encodeCue, encodeLoop, controlFrames, preambleFrames]

/-- C7: a text of exactly one basic-North-American character followed by
one West-European extended character emits, between the control skeleton
and the end_of_caption pair, exactly a paired (basic-NA, space) frame
followed by the standalone extended code. -/
theorem basicna_westeu_pairing (T : CodeTable) (a b : Char)
    (ha1 : a ≠ '\n') (ha2 : a ≠ '\r') (hb1 : b ≠ '\n') (hb2 : b ≠ '\r')
    (hA : is_basicna (T.fromUtf8 a) = true)
    (hB : is_westeu (T.fromUtf8 b) = true) :
    encodeCue T [a, b] =
      [T.control .resumeCaptionLoading, T.control .resumeCaptionLoading,
        T.control .eraseNonDisplayedMemory,
        T.control .eraseNonDisplayedMemory,
        T.preamble 13 0, T.preamble 13 0] ++
      [T.fromBasicna (T.fromUtf8 a) (T.fromUtf8 ' '), T.fromUtf8 b] ++
      [T.control .endOfCaption, T.control .endOfCaption] := by
  have fa0 : ¬T.fromUtf8 a = 0 := basicna_nonzero hA
  have fb0 : ¬T.fromUtf8 b = 0 := westeu_nonzero hB
  have hwa : is_westeu (T.fromUtf8 a) = false := basicna_not_westeu hA
  have hsa : is_specialna (T.fromUtf8 a) = false := basicna_not_specialna hA
  have hbb : is_basicna (T.fromUtf8 b) = false := westeu_not_basicna hB
  have hsb : is_specialna (T.fromUtf8 b) = false := westeu_not_specialna hB
  have hz : is_basicna 0 = false := by decide
  simp [encodeCue, encodeLoop, controlFrames, preambleFrames, ha1, ha2,
    hb1, hb2, fa0, fb0, hA, hB, hwa, hsa, hbb, hsb, hz]

theorem basicna_westeu_pairing_witness :
    ('a' ≠ '\n' ∧ 'a' ≠ '\r' ∧ 'é' ≠ '\n' ∧ 'é' ≠ '\r' ∧
      is_basicna (exampleTable.fromUtf8 'a') = true ∧
      is_westeu (exampleTable.fromUtf8 'é') = true) ∧
    encodeCue exampleTable ['a', 'é'] =
      [exampleTable.control .resumeCaptionLoading,
        exampleTable.control .resumeCaptionLoading,
        exampleTable.control .eraseNonDisplayedMemory,
        exampleTable.control .eraseNonDisplayedMemory,
        exampleTable.preamble 13 0, exampleTable.preamble 13 0] ++
      [exampleTable.fromBasicna (exampleTable.fromUtf8 'a')
          (exampleTable.fromUtf8 ' '), exampleTable.fromUtf8 'é'] ++
      [exampleTable.control .endOfCaption,
        exampleTable.control .endOfCaption] :=
  ⟨⟨by decide, by decide, by decide, by decide, by decide, by decide⟩,
    basicna_westeu_pairing exampleTable 'a' 'é' (by decide) (by decide)
      (by decide) (by decide) (by decide) (by decide)⟩

/-- C3, evaluation at the failing input: feeding 33 plain ASCII letters
on a single line, the encoder emits all 33 characters (sixteen basic-NA
pairs followed by one standalone flushed character), not 32.  The
source's column check `col += 1; if col > 32 { warn; continue; }` is the
last statement of its loop body, so its `continue` drops nothing. -/
theorem column_overflow_not_dropped :
    encodeCue exampleTable (List.replicate 33 'a') =
      [0x1420, 0x1420, 0x142e, 0x142e, 0x12f0, 0x12f0] ++
      List.replicate 16
        (exampleTable.fromBasicna (exampleTable.fromUtf8 'a')
          (exampleTable.fromUtf8 'a')) ++
      [exampleTable.fromUtf8 'a'] ++ [0x142f, 0x142f] := by
  decide

/-- C8: with a pending deferred erase, an end-of-stream notification
clears the pending flag and resolves the erase in a single push; a
second end-of-stream notification right after performs no resolution and
produces no output. -/
theorem eos_resolves_once (T : CodeTable) (s : State) (e : Nat)
    (h : s.erase_display_frame_no = some e) :
    (sink_event_eos T s).1.erase_display_frame_no = none ∧
      (sink_event_eos T s).2.length = 1 ∧
      sink_event_eos T (sink_event_eos T s).1 =
        ((sink_event_eos T s).1, []) := by
  simp [sink_event_eos, h, do_erase_display]

theorem eos_resolves_once_witness :
    ({ fps_n := 30, fps_d := 1, erase_display_frame_no := some 5,
        last_frame_no := 2 } : State).erase_display_frame_no = some 5 ∧
    ((sink_event_eos exampleTable
        { fps_n := 30, fps_d := 1, erase_display_frame_no := some 5,
          last_frame_no := 2 }).1.erase_display_frame_no = none ∧
      (sink_event_eos exampleTable
        { fps_n := 30, fps_d := 1, erase_display_frame_no := some 5,
          last_frame_no := 2 }).2.length = 1 ∧
      sink_event_eos exampleTable
          (sink_event_eos exampleTable
            { fps_n := 30, fps_d := 1, erase_display_frame_no := some 5,
              last_frame_no := 2 }).1 =
        ((sink_event_eos exampleTable
            { fps_n := 30, fps_d := 1, erase_display_frame_no := some 5,
              last_frame_no := 2 }).1, []) ) :=
  ⟨rfl,
    eos_resolves_once exampleTable
      { fps_n := 30, fps_d := 1, erase_display_frame_no := some 5,
        last_frame_no := 2 } 5 rfl⟩

/-- C4, counterexample to the claim as stated: the code ignores a gap
notification only when the frame number *before* subtracting the latency
budget is below the budget.  Here the gap's end maps to frame 100, the
adjusted frame number 26 is below the budget 74, yet the notification is
not ignored: the pending erase is resolved (flag cleared) and a push is
produced. -/
theorem gap_threshold_cx :
    time_to_frames 30 1 (3333333334 + 0) - LATENCY_BUFFERS <
        LATENCY_BUFFERS ∧
      (sink_event_gap exampleTable
          { fps_n := 30, fps_d := 1, erase_display_frame_no := some 1,
            last_frame_no := 0 } 3333333334 0).1.erase_display_frame_no ≠
        some 1 ∧
      (sink_event_gap exampleTable
          { fps_n := 30, fps_d := 1, erase_display_frame_no := some 1,
            last_frame_no := 0 } 3333333334 0).2 ≠ [] := by
  decide

/-- C4 (amended): on a gap notification with end timestamp `t`, the
frame number is computed from `t`; if it is below the latency budget
(before subtraction) the notification is ignored with no state change
and no output; otherwise the budget is subtracted and a pending erase
whose target is at or before the adjusted frame number is resolved via
`do_erase_display` with the current floor as `min_frame_no` and the
pending target as target, clearing the pending flag; in the remaining
cases nothing happens. -/
theorem gap_event_spec (T : CodeTable) (s : State) (ts dur : Nat) :
    (time_to_frames s.fps_n s.fps_d (ts + dur) < LATENCY_BUFFERS →
      sink_event_gap T s ts dur = (s, [])) ∧
    (∀ e, LATENCY_BUFFERS ≤ time_to_frames s.fps_n s.fps_d (ts + dur) →
      s.erase_display_frame_no = some e →
      e ≤ time_to_frames s.fps_n s.fps_d (ts + dur) - LATENCY_BUFFERS →
      sink_event_gap T s ts dur =
        ((do_erase_display T { s with erase_display_frame_no := none }
            s.last_frame_no e).1,
          [(do_erase_display T { s with erase_display_frame_no := none }
            s.last_frame_no e).2])) ∧
    (∀ e, LATENCY_BUFFERS ≤ time_to_frames s.fps_n s.fps_d (ts + dur) →
      s.erase_display_frame_no = some e →
      time_to_frames s.fps_n s.fps_d (ts + dur) - LATENCY_BUFFERS < e →
      sink_event_gap T s ts dur = (s, [])) ∧
    (LATENCY_BUFFERS ≤ time_to_frames s.fps_n s.fps_d (ts + dur) →
      s.erase_display_frame_no = none →
      sink_event_gap T s ts dur = (s, [])) := by
  refine ⟨?_, ?_, ?_, ?_⟩
  · intro hlt
    simp [sink_event_gap, hlt]
  · intro e hge hp hle
    simp [sink_event_gap, Nat.not_lt_of_le hge, hp, hle]
  · intro e hge hp hgt
    simp [sink_event_gap, Nat.not_lt_of_le hge, hp, Nat.not_le_of_lt hgt]
  · intro hge hp
    simp [sink_event_gap, Nat.not_lt_of_le hge, hp]

theorem gap_event_spec_witness :
    (LATENCY_BUFFERS ≤ time_to_frames 30 1 (3333333334 + 0) ∧
      ({ fps_n := 30, fps_d := 1, erase_display_frame_no := some 1,
          last_frame_no := 0 } : State).erase_display_frame_no = some 1 ∧
      1 ≤ time_to_frames 30 1 (3333333334 + 0) - LATENCY_BUFFERS) ∧
    sink_event_gap exampleTable
        { fps_n := 30, fps_d := 1, erase_display_frame_no := some 1,
          last_frame_no := 0 } 3333333334 0 =
      ((do_erase_display exampleTable
          { fps_n := 30, fps_d := 1, erase_display_frame_no := none,
            last_frame_no := 0 } 0 1).1,
        [(do_erase_display exampleTable
          { fps_n := 30, fps_d := 1, erase_display_frame_no := none,
            last_frame_no := 0 } 0 1).2]) :=
  ⟨⟨by decide, rfl, by decide⟩,
    (gap_event_spec exampleTable
        { fps_n := 30, fps_d := 1, erase_display_frame_no := some 1,
          last_frame_no := 0 } 3333333334 0).2.1 1 (by decide) rfl
      (by decide)⟩

/-! ## Lemmas about the backward-scheduling walk -/

@[simp]
theorem push_list_frames (fps_n fps_d : Nat) (bl : List Frame)
    (a b : Nat) : (push_list fps_n fps_d bl a b).frames = bl := by
  unfold push_list
  split <;> rfl

@[simp]
theorem pushesFrames_nil : pushesFrames [] = [] := rfl

@[simp]
theorem pushesFrames_cons (p : Push) (ps : List Push) :
    pushesFrames (p :: ps) = p.frames ++ pushesFrames ps := rfl

theorem decrement_pts_fst (m f fps_n fps_d : Nat) :
    (decrement_pts m f fps_n fps_d).1 = if m < f then f - 1 else f := rfl

theorem decrement_pts_ge (m f fps_n fps_d : Nat) (h : m ≤ f) :
    m ≤ (decrement_pts m f fps_n fps_d).1 := by
  rw [decrement_pts_fst]
  split <;> omega

theorem decrement_pts_snd (m f fps_n fps_d : Nat) :
    (decrement_pts m f fps_n fps_d).2.1 =
      frames_to_time fps_n fps_d (decrement_pts m f fps_n fps_d).1 := rfl

/-- If the frame number is at or above the floor, one scheduling step
yields a timestamp at or above the floor's timestamp. -/
theorem decrement_pts_pts_ge (m f fps_n fps_d : Nat) (h : m ≤ f) :
    frames_to_time fps_n fps_d m ≤ (decrement_pts m f fps_n fps_d).2.1 := by
  rw [decrement_pts_snd]
  exact frames_to_time_mono_of_le _ _ (decrement_pts_ge m f fps_n fps_d h)

theorem do_erase_display_state (T : CodeTable) (s : State) (m e : Nat) :
    (do_erase_display T s m e).1 = { s with last_frame_no := e } := rfl

theorem do_erase_display_frames_ge (T : CodeTable) (s : State) (m e : Nat)
    (h : m ≤ e) :
    ∀ fr ∈ (do_erase_display T s m e).2.frames,
      frames_to_time s.fps_n s.fps_d m ≤ fr.pts := by
  intro fr hfr
  have h1 : m ≤ (decrement_pts m e s.fps_n s.fps_d).1 :=
    decrement_pts_ge m e s.fps_n s.fps_d h
  simp only [do_erase_display, push_list_frames, List.mem_cons,
    List.mem_singleton] at hfr
  rcases hfr with h' | h' | h'
  · rw [h']
    exact decrement_pts_pts_ge m _ s.fps_n s.fps_d h1
  · rw [h']
    exact decrement_pts_pts_ge m e s.fps_n s.fps_d h
  · cases h'

/-- The timestamp-assignment walk keeps the frame number at or above the
floor and only emits frames whose timestamps are at or above the floor's
timestamp. -/
theorem schedLoop_floor (ccE m fps_n fps_d : Nat) :
    ∀ (bufs : List Nat) (f : Nat) (er : Option Nat) (bl : List Frame),
      m ≤ f →
      (∀ fr ∈ bl, frames_to_time fps_n fps_d m ≤ fr.pts) →
      (∀ fr ∈ (schedLoop ccE m fps_n fps_d bufs f er bl).1,
          frames_to_time fps_n fps_d m ≤ fr.pts) ∧
        m ≤ (schedLoop ccE m fps_n fps_d bufs f er bl).2.1 := by
  intro bufs
  induction bufs with
  | nil =>
    intro f er bl hf hbl
    exact ⟨hbl, hf⟩
  | cons cc rest ih =>
    intro f er bl hf hbl
    by_cases hsp : er = some f
    · simp only [schedLoop, if_pos hsp]
      have h1 : m ≤ (decrement_pts m f fps_n fps_d).1 :=
        decrement_pts_ge m f fps_n fps_d hf
      have h2 : m ≤ (decrement_pts m (decrement_pts m f fps_n fps_d).1
          fps_n fps_d).1 :=
        decrement_pts_ge m _ fps_n fps_d h1
      apply ih
      · exact decrement_pts_ge m _ fps_n fps_d h2
      · intro fr hfr
        rcases List.mem_cons.mp hfr with h' | hfr
        · rw [h']
          exact decrement_pts_pts_ge m _ fps_n fps_d h2
        · rcases List.mem_cons.mp hfr with h' | hfr
          · rw [h']
            exact decrement_pts_pts_ge m _ fps_n fps_d h1
          · rcases List.mem_cons.mp hfr with h' | hfr
            · rw [h']
              exact decrement_pts_pts_ge m f fps_n fps_d hf
            · exact hbl fr hfr
    · simp only [schedLoop, if_neg hsp]
      apply ih
      · exact decrement_pts_ge m f fps_n fps_d hf
      · intro fr hfr
        rcases List.mem_cons.mp hfr with h' | hfr
        · rw [h']
          exact decrement_pts_pts_ge m f fps_n fps_d hf
        · exact hbl fr hfr

/-- A walk that starts with no pending erase never acquires one. -/
theorem schedLoop_none (ccE m fps_n fps_d : Nat) :
    ∀ (bufs : List Nat) (f : Nat) (bl : List Frame),
      (schedLoop ccE m fps_n fps_d bufs f none bl).2.2 = none := by
  intro bufs
  induction bufs with
  | nil => intro f bl; rfl
  | cons cc rest ih =>
    intro f bl
    have hne : (none : Option Nat) ≠ some f := by simp
    simp only [schedLoop, if_neg hne]
    exact ih _ _

/-- If the walk ends with a pending erase, it is the one it started
with. -/
theorem schedLoop_er_some (ccE m fps_n fps_d : Nat) :
    ∀ (bufs : List Nat) (f : Nat) (er : Option Nat) (bl : List Frame)
      (e : Nat),
      (schedLoop ccE m fps_n fps_d bufs f er bl).2.2 = some e →
      er = some e := by
  intro bufs
  induction bufs with
  | nil =>
    intro f er bl e h
    exact h
  | cons cc rest ih =>
    intro f er bl e h
    by_cases hsp : er = some f
    · simp only [schedLoop, if_pos hsp] at h
      rw [schedLoop_none] at h
      cases h
    · simp only [schedLoop, if_neg hsp] at h
      exact ih _ _ _ _ h

/-- A walk that stays strictly above its pending erase target never
splices: the pending value survives and the scheduled codes are exactly
the traversed ones (prepended, hence reversed). -/
theorem schedLoop_no_splice (ccE m fps_n fps_d e : Nat) :
    ∀ (bufs : List Nat) (f : Nat) (bl : List Frame),
      e + bufs.length < f →
      (schedLoop ccE m fps_n fps_d bufs f (some e) bl).2.2 = some e ∧
        (schedLoop ccE m fps_n fps_d bufs f (some e) bl).1.map Frame.cc =
          bufs.reverse ++ bl.map Frame.cc := by
  intro bufs
  induction bufs with
  | nil =>
    intro f bl h
    exact ⟨rfl, by simp [schedLoop]⟩
  | cons cc rest ih =>
    intro f bl h
    have hlen : e + rest.length + 1 < f := by
      simp only [List.length_cons] at h
      omega
    have hne : some e ≠ some f := by
      intro hc
      injection hc with hc
      omega
    simp only [schedLoop, if_neg hne]
    have hf' : e + rest.length < (decrement_pts m f fps_n fps_d).1 := by
      rw [decrement_pts_fst]
      split <;> omega
    obtain ⟨h1, h2⟩ := ih (decrement_pts m f fps_n fps_d).1
      (Frame.mk cc (decrement_pts m f fps_n fps_d).2.1
        (decrement_pts m f fps_n fps_d).2.2 :: bl) hf'
    refine ⟨h1, ?_⟩
    rw [h2]
    simp

/-- Every encoded cue starts with the doubled resume_caption_loading. -/
theorem encodeCue_take_two (T : CodeTable) (text : List Char) :
    (encodeCue T text).take 2 =
      [T.control .resumeCaptionLoading,
        T.control .resumeCaptionLoading] := by
  simp [encodeCue, controlFrames, preambleFrames]

/-- C5, counterexample to the claim as stated: with cue A at pts 0 and
duration 0 (leaving a deferred erase target of frame 2) and cue B at
pts 0.1 s (starting target frame 3), the pending target 2 is strictly
less than 3, but the two erase-display frames are spliced into the
middle of cue B's output (positions 5 and 6, between the two preamble
frames), after cue B's resume_caption_loading pair at positions 0 and 1,
not before it. -/
theorem erase_splice_position_cx :
    ((sink_chain exampleTable
          (sink_chain exampleTable State.default 0 0 []).1
          100000000 0 []).2.map fun p => p.frames.map Frame.cc) =
      [[0x1420, 0x1420, 0x142e, 0x142e, 0x12f0, 0x142c, 0x142c, 0x12f0,
        0x142f, 0x142f]] ∧
    (sink_chain exampleTable State.default 0 0
        []).1.erase_display_frame_no = some 2 ∧
    option_lt (some 2) (time_to_frames 30 1 100000000) = true := by
  decide

/-- C5 (amended): when a pending deferred erase target `e` is strictly
below cue B's starting target frame number and the backward walk over
cue B's buffers ends above `e` (that is, `e` plus the number of encoded
caption frames is below the walk's starting frame number), the erase is
resolved as a separate push delivered before cue B's push — hence its
two doubled erase-display frames precede cue B's resume_caption_loading
pair — at the timestamps the backward-scheduling steps compute for the
target frame against the current floor, and the pending target is
replaced by cue B's new target.  (When the walk reaches `e` within cue
B's buffers, the pair is instead spliced inside cue B's list at that
point, as the counterexample shows.) -/
theorem erase_fallback_before_cue (T : CodeTable) (s : State)
    (pts dur : Nat) (text : List Char) (e : Nat)
    (hp : s.erase_display_frame_no = some e)
    (hlt : e < time_to_frames s.fps_n s.fps_d pts)
    (hfar : e + (encodeCue T text).length <
      time_to_frames s.fps_n s.fps_d pts + 2) :
    (sink_chain T s pts dur text).2.length = 2 ∧
    ((sink_chain T s pts dur text).2.map fun p => p.frames.map Frame.cc) =
      [[T.control .eraseDisplayMemory, T.control .eraseDisplayMemory],
        encodeCue T text] ∧
    (pushesFrames (sink_chain T s pts dur text).2).take 2 =
      [Frame.mk (T.control .eraseDisplayMemory)
          (decrement_pts s.last_frame_no
            (decrement_pts s.last_frame_no e s.fps_n s.fps_d).1
            s.fps_n s.fps_d).2.1
          (decrement_pts s.last_frame_no
            (decrement_pts s.last_frame_no e s.fps_n s.fps_d).1
            s.fps_n s.fps_d).2.2,
        Frame.mk (T.control .eraseDisplayMemory)
          (decrement_pts s.last_frame_no e s.fps_n s.fps_d).2.1
          (decrement_pts s.last_frame_no e s.fps_n s.fps_d).2.2] ∧
    (encodeCue T text).take 2 =
      [T.control .resumeCaptionLoading,
        T.control .resumeCaptionLoading] ∧
    (sink_chain T s pts dur text).1.erase_display_frame_no =
      some (time_to_frames s.fps_n s.fps_d (pts + dur) + 2) ∧
    (sink_chain T s pts dur text).1.last_frame_no = e := by
  have hopt : option_lt (some e)
      (time_to_frames s.fps_n s.fps_d pts) = true := by
    simp only [option_lt, decide_eq_true_eq]
    exact hlt
  have hNlen : e + (encodeCue T text).reverse.length <
      time_to_frames s.fps_n s.fps_d pts + 2 := by
    simpa using hfar
  obtain ⟨h1, h2⟩ := schedLoop_no_splice (T.control .eraseDisplayMemory)
    s.last_frame_no s.fps_n s.fps_d e (encodeCue T text).reverse
    (time_to_frames s.fps_n s.fps_d pts + 2) [] hNlen
  have hmain : sink_chain T s pts dur text =
      ((do_erase_display T
          { s with
            last_frame_no := time_to_frames s.fps_n s.fps_d pts + 2,
            erase_display_frame_no :=
              some (time_to_frames s.fps_n s.fps_d (pts + dur) + 2) }
          s.last_frame_no e).1,
        [(do_erase_display T
            { s with
              last_frame_no := time_to_frames s.fps_n s.fps_d pts + 2,
              erase_display_frame_no :=
                some (time_to_frames s.fps_n s.fps_d (pts + dur) + 2) }
            s.last_frame_no e).2,
          push_list s.fps_n s.fps_d
            (schedLoop (T.control .eraseDisplayMemory) s.last_frame_no
              s.fps_n s.fps_d (encodeCue T text).reverse
              (time_to_frames s.fps_n s.fps_d pts + 2) (some e) []).1
            e
            (schedLoop (T.control .eraseDisplayMemory) s.last_frame_no
              s.fps_n s.fps_d (encodeCue T text).reverse
              (time_to_frames s.fps_n s.fps_d pts + 2) (some e)
              []).2.1]) := by
    simp only [sink_chain, hp, hopt, if_true, h1]
  refine ⟨?_, ?_, ?_, encodeCue_take_two T text, ?_, ?_⟩
  · rw [hmain]
    rfl
  · rw [hmain]
    simp only [List.map_cons, List.map_nil, do_erase_display,
      push_list_frames]
    rw [h2]
    simp
  · rw [hmain]
    simp [do_erase_display, pushesFrames]
  · rw [hmain]
    simp [do_erase_display]
  · rw [hmain]
    simp [do_erase_display]

theorem erase_fallback_before_cue_witness :
    (({ fps_n := 30, fps_d := 1, erase_display_frame_no := some 2,
          last_frame_no := 2 } : State).erase_display_frame_no = some 2 ∧
      2 < time_to_frames 30 1 2000000000 ∧
      2 + (encodeCue exampleTable []).length <
        time_to_frames 30 1 2000000000 + 2) ∧
    ((sink_chain exampleTable
        { fps_n := 30, fps_d := 1, erase_display_frame_no := some 2,
          last_frame_no := 2 } 2000000000 0 []).2.length = 2 ∧
      ((sink_chain exampleTable
          { fps_n := 30, fps_d := 1, erase_display_frame_no := some 2,
            last_frame_no := 2 } 2000000000 0 []).2.map
        fun p => p.frames.map Frame.cc) =
        [[exampleTable.control .eraseDisplayMemory,
          exampleTable.control .eraseDisplayMemory],
          encodeCue exampleTable []] ∧
      (pushesFrames (sink_chain exampleTable
          { fps_n := 30, fps_d := 1, erase_display_frame_no := some 2,
            last_frame_no := 2 } 2000000000 0 []).2).take 2 =
        [Frame.mk (exampleTable.control .eraseDisplayMemory)
            (decrement_pts 2 (decrement_pts 2 2 30 1).1 30 1).2.1
            (decrement_pts 2 (decrement_pts 2 2 30 1).1 30 1).2.2,
          Frame.mk (exampleTable.control .eraseDisplayMemory)
            (decrement_pts 2 2 30 1).2.1 (decrement_pts 2 2 30 1).2.2] ∧
      (encodeCue exampleTable []).take 2 =
        [exampleTable.control .resumeCaptionLoading,
          exampleTable.control .resumeCaptionLoading] ∧
      (sink_chain exampleTable
          { fps_n := 30, fps_d := 1, erase_display_frame_no := some 2,
            last_frame_no := 2 } 2000000000 0
          []).1.erase_display_frame_no =
        some (time_to_frames 30 1 (2000000000 + 0) + 2) ∧
      (sink_chain exampleTable
          { fps_n := 30, fps_d := 1, erase_display_frame_no := some 2,
            last_frame_no := 2 } 2000000000 0 []).1.last_frame_no = 2) :=
  ⟨⟨rfl, by decide, by decide⟩,
    erase_fallback_before_cue exampleTable
      { fps_n := 30, fps_d := 1, erase_display_frame_no := some 2,
        last_frame_no := 2 } 2000000000 0 [] 2 rfl (by decide)
      (by decide)⟩

/-! ## The cross-operation floor discipline (C1) -/

/-- Processing one in-order cue only emits frames at or above the floor
in force, never lowers the floor, and re-establishes the invariant. -/
theorem sink_chain_step (T : CodeTable) (s : State) (pts dur : Nat)
    (text : List Char) (hInv : Inv s)
    (hord : s.last_frame_no ≤ time_to_frames s.fps_n s.fps_d pts + 2) :
    (∀ fr ∈ pushesFrames (sink_chain T s pts dur text).2,
        frames_to_time s.fps_n s.fps_d s.last_frame_no ≤ fr.pts) ∧
      s.last_frame_no ≤ (sink_chain T s pts dur text).1.last_frame_no ∧
      Inv (sink_chain T s pts dur text).1 := by
  have hbase : time_to_frames s.fps_n s.fps_d pts ≤
      time_to_frames s.fps_n s.fps_d (pts + dur) :=
    time_to_frames_mono _ _ (Nat.le_add_right _ _)
  obtain ⟨hfr, hge⟩ := schedLoop_floor (T.control .eraseDisplayMemory)
    s.last_frame_no s.fps_n s.fps_d (encodeCue T text).reverse
    (time_to_frames s.fps_n s.fps_d pts + 2)
    (if option_lt s.erase_display_frame_no
        (time_to_frames s.fps_n s.fps_d pts) then
      s.erase_display_frame_no else none) []
    (by omega) (by intro fr h; cases h)
  simp only [sink_chain]
  set R := schedLoop (T.control .eraseDisplayMemory) s.last_frame_no
    s.fps_n s.fps_d (encodeCue T text).reverse
    (time_to_frames s.fps_n s.fps_d pts + 2)
    (if option_lt s.erase_display_frame_no
        (time_to_frames s.fps_n s.fps_d pts) then
      s.erase_display_frame_no else none) [] with hRdef
  rcases hcase : R.2.2 with _ | e
  · simp only [hcase]
    refine ⟨?_, hord, ?_⟩
    · intro fr hmem
      simp only [pushesFrames_cons, pushesFrames_nil, push_list_frames,
        List.append_nil] at hmem
      exact hfr fr hmem
    · intro e' he'
      have he2 : some (time_to_frames s.fps_n s.fps_d (pts + dur) + 2) =
          some e' := he'
      injection he2 with he2
      show time_to_frames s.fps_n s.fps_d pts + 2 ≤ e'
      omega
  · simp only [hcase]
    have hcase' : (schedLoop (T.control .eraseDisplayMemory)
        s.last_frame_no s.fps_n s.fps_d (encodeCue T text).reverse
        (time_to_frames s.fps_n s.fps_d pts + 2)
        (if option_lt s.erase_display_frame_no
            (time_to_frames s.fps_n s.fps_d pts) then
          s.erase_display_frame_no else none) []).2.2 = some e := by
      rw [← hRdef]
      exact hcase
    have hER := schedLoop_er_some _ _ _ _ _ _ _ _ e hcase'
    by_cases hopt : option_lt s.erase_display_frame_no
        (time_to_frames s.fps_n s.fps_d pts) = true
    · rw [if_pos hopt] at hER
      have hmin : s.last_frame_no ≤ e := hInv e hER
      have helt : e < time_to_frames s.fps_n s.fps_d pts := by
        rw [hER] at hopt
        simpa [option_lt] using hopt
      refine ⟨?_, hmin, ?_⟩
      · intro fr hmem
        simp only [pushesFrames_cons, pushesFrames_nil, push_list_frames,
          List.append_nil, List.mem_append] at hmem
        rcases hmem with hmem | hmem
        · exact do_erase_display_frames_ge T _ s.last_frame_no e hmin
            fr hmem
        · exact hfr fr hmem
      · intro e' he'
        have he2 : some (time_to_frames s.fps_n s.fps_d (pts + dur) + 2) =
            some e' := he'
        injection he2 with he2
        show e ≤ e'
        omega
    · rw [if_neg hopt] at hER
      cases hER

/-- A gap notification only emits frames at or above the floor in
force, never lowers the floor, and preserves the invariant. -/
theorem sink_event_gap_step (T : CodeTable) (s : State) (ts dur : Nat)
    (hInv : Inv s) :
    (∀ fr ∈ pushesFrames (sink_event_gap T s ts dur).2,
        frames_to_time s.fps_n s.fps_d s.last_frame_no ≤ fr.pts) ∧
      s.last_frame_no ≤ (sink_event_gap T s ts dur).1.last_frame_no ∧
      Inv (sink_event_gap T s ts dur).1 := by
  unfold sink_event_gap
  by_cases hlb : time_to_frames s.fps_n s.fps_d (ts + dur) <
      LATENCY_BUFFERS
  · simp only [if_pos hlb]
    exact ⟨(by intro fr h; cases h), Nat.le_refl _, hInv⟩
  · simp only [if_neg hlb]
    rcases hp : s.erase_display_frame_no with _ | e
    · exact ⟨(by intro fr h; cases h), Nat.le_refl _, hInv⟩
    · have hmin : s.last_frame_no ≤ e := hInv e hp
      by_cases hle : e ≤ time_to_frames s.fps_n s.fps_d (ts + dur) -
          LATENCY_BUFFERS
      · simp only [if_pos hle]
        refine ⟨?_, hmin, ?_⟩
        · intro fr hmem
          simp only [pushesFrames_cons, pushesFrames_nil,
            List.append_nil] at hmem
          exact do_erase_display_frames_ge T _ s.last_frame_no e hmin
            fr hmem
        · intro e' he'
          cases he'
      · simp only [if_neg hle]
        exact ⟨(by intro fr h; cases h), Nat.le_refl _, hInv⟩

/-- An end-of-stream notification only emits frames at or above the
floor in force, never lowers the floor, and preserves the invariant. -/
theorem sink_event_eos_step (T : CodeTable) (s : State) (hInv : Inv s) :
    (∀ fr ∈ pushesFrames (sink_event_eos T s).2,
        frames_to_time s.fps_n s.fps_d s.last_frame_no ≤ fr.pts) ∧
      s.last_frame_no ≤ (sink_event_eos T s).1.last_frame_no ∧
      Inv (sink_event_eos T s).1 := by
  unfold sink_event_eos
  rcases hp : s.erase_display_frame_no with _ | e
  · exact ⟨(by intro fr h; cases h), Nat.le_refl _, hInv⟩
  · have hmin : s.last_frame_no ≤ e := hInv e hp
    refine ⟨?_, hmin, ?_⟩
    · intro fr hmem
      simp only [pushesFrames_cons, pushesFrames_nil,
        List.append_nil] at hmem
      exact do_erase_display_frames_ge T _ s.last_frame_no e hmin fr hmem
    · intro e' he'
      cases he'

/-- One in-order operation of any kind respects the floor and preserves
the invariant. -/
theorem stepOp_floor (T : CodeTable) (s : State) (op : Op) (hInv : Inv s)
    (hord : opInOrder s op) :
    (∀ fr ∈ pushesFrames (stepOp T s op).2,
        frames_to_time s.fps_n s.fps_d s.last_frame_no ≤ fr.pts) ∧
      s.last_frame_no ≤ (stepOp T s op).1.last_frame_no ∧
      Inv (stepOp T s op).1 := by
  cases op with
  | cue pts dur text => exact sink_chain_step T s pts dur text hInv hord
  | gap ts dur => exact sink_event_gap_step T s ts dur hInv
  | eos => exact sink_event_eos_step T s hInv

/-- C1, counterexample to the claim as stated: with the default state,
a cue at pts 1 s (floor becomes 32) followed by an out-of-order cue at
pts 0 makes `last_frame_no` decrease (to 2), and every caption frame of
the second cue is scheduled strictly below the floor's timestamp. -/
theorem last_frame_no_decreases_cx :
    (sink_chain exampleTable
        (sink_chain exampleTable State.default 1000000000 0 []).1 0 0
        []).1.last_frame_no <
      (sink_chain exampleTable State.default 1000000000 0
        []).1.last_frame_no ∧
    ∀ fr ∈ pushesFrames
        (sink_chain exampleTable
          (sink_chain exampleTable State.default 1000000000 0 []).1 0 0
          []).2,
      fr.pts < frames_to_time 30 1
        (sink_chain exampleTable State.default 1000000000 0
          []).1.last_frame_no := by
  decide

/-- C1 (amended): starting from a state satisfying the pending-erase
invariant (the default state does), as long as every cue arrives in
order — its target frame number (start frame + 2) is at or above the
floor in force — no operation ever emits a caption frame whose timestamp
is below `frames_to_time` of the floor in force when the operation
begins, and `last_frame_no` never decreases across operations. -/
theorem floor_invariant_in_order (T : CodeTable) (s : State)
    (ops : List Op) (hInv : Inv s) (hord : InOrderFrom T s ops) :
    FloorProp T s ops := by
  induction ops generalizing s with
  | nil => trivial
  | cons op rest ih =>
    simp only [InOrderFrom] at hord
    obtain ⟨h1, h2⟩ := hord
    obtain ⟨hA, hB, hC⟩ := stepOp_floor T s op hInv h1
    simp only [FloorProp]
    exact ⟨hA, hB, ih _ hC h2⟩

theorem floor_invariant_in_order_witness :
    Inv State.default ∧
      InOrderFrom exampleTable State.default
        [Op.cue 0 0 [], Op.cue 1000000000 0 [], Op.eos] ∧
      FloorProp exampleTable State.default
        [Op.cue 0 0 [], Op.cue 1000000000 0 [], Op.eos] := by
  have hInv : Inv State.default := by
    intro e h
    cases h
  have hord : InOrderFrom exampleTable State.default
      [Op.cue 0 0 [], Op.cue 1000000000 0 [], Op.eos] := by
    refine ⟨?_, ?_, trivial, trivial⟩
    · show State.default.last_frame_no ≤
        time_to_frames State.default.fps_n State.default.fps_d 0 + 2
      decide
    · show (stepOp exampleTable State.default
          (Op.cue 0 0 [])).1.last_frame_no ≤ _
      decide
  exact ⟨hInv, hord,
    floor_invariant_in_order exampleTable State.default _ hInv hord⟩

end TtToCea608
